import Mathlib

/-!
Shallow embedding of the context-menu subsystem of
`src/src/app/src/Services/ContextMenuService.js` (Wavebox), together with
theorems settling the frozen claims about it.

Conventions: JS arrays become `List`, JS objects become structures, a JS
value that may be `undefined` becomes an `Option`, JS string truthiness
becomes a `≠ ""` test, and the asynchronous credential lookup becomes an
explicit outcome value.  Menu template entries are modelled by `Item`;
click handlers are modelled by the data they act on (the clipboard text
for `Copy Link Address`), not by their side effects.
-/

/-- A menu template entry as produced by the section renderers
(`{label, enabled?, icon?, click}` objects or `{type: 'separator'}`). -/
inductive Item where
  | action (label : String) (enabled : Bool) (icon : Option String)
  | separator
deriving Repr, DecidableEq

/-- JS `s.startsWith(pre)`. -/
def jsStartsWith (s pre : String) : Bool :=
  pre.data.isPrefixOf s.data

/-- JS `s.indexOf(c) !== -1` for a single character. -/
def jsContainsChar (s : String) (c : Char) : Bool :=
  s.data.contains c

/-- JS `s.substr(0, n)`. -/
def jsSubstrTake (s : String) (n : Nat) : String :=
  ⟨s.data.take n⟩

/-- Is this template entry a separator (`{type: 'separator'}`)? -/
def isSep : Item → Bool
  | Item.separator => true
  | _ => false

/-- One step of the `reduce` in `convertSectionsToTemplate` (lines 147-157):
a present, non-empty section is appended followed by a separator, anything
else (`undefined`, `null`, or an empty array) is skipped. -/
def sectionFoldStep (acc : List Item) (sec : Option (List Item)) : List Item :=
  match sec with
  | some s => if s.isEmpty then acc else acc ++ s ++ [Item.separator]
  | none => acc

/-- `convertSectionsToTemplate` (lines 147-157): fold the sections and
drop the final trailing separator (`slice(0, -1)`). -/
def convertSectionsToTemplate (sections : List (Option (List Item))) : List Item :=
  (sections.foldl sectionFoldStep []).dropLast

/-- The parts of the context-menu `params` used by the embedded renderers. -/
structure CMParams where
  selectionText : String
  misspelledWord : String
  linkURL : String
  isEditable : Bool
  inputFieldType : String
deriving Repr, DecidableEq

/-- The display form of the selection used by `renderLookupAndSearchSection`
(lines 352-354): texts of length at least 50 are truncated to their first 47
characters plus an ellipsis. -/
def contextDisplayText (selectionText : String) : String :=
  if selectionText.length ≥ 50 then jsSubstrTake selectionText 47 ++ "…" else selectionText

/-- `renderLookupAndSearchSection` (lines 342-365): empty when there is no
selection; otherwise an optional add-to-dictionary entry followed by the
search and translate actions, whose labels use `contextDisplayText`. -/
def renderLookupAndSearchSection (p : CMParams) : List Item :=
  if p.selectionText ≠ "" then
    (if p.isEditable && p.misspelledWord ≠ "" then
      [Item.action ("Add “" ++ p.misspelledWord ++ "” to Dictionary") true none]
    else []) ++
    [Item.action ("Search Google for “" ++ contextDisplayText p.selectionText ++ "”") true none,
     Item.action ("Translate “" ++ contextDisplayText p.selectionText ++ "”") true none]
  else []

/-- Replace the first occurrence of `pat` in a character list, as JS
`String.prototype.replace` with a string pattern does. -/
def replaceFirstList (pat repl : List Char) : List Char → List Char
  | [] => if pat.isEmpty then repl else []
  | c :: rest =>
    if pat.isPrefixOf (c :: rest) then repl ++ (c :: rest).drop pat.length
    else c :: replaceFirstList pat repl rest

/-- JS `s.replace(pat, repl)` for string patterns: first occurrence only. -/
def jsReplaceFirst (s pat repl : String) : String :=
  ⟨replaceFirstList pat.data repl.data s.data⟩

/-- The text written to the clipboard by the `Copy Link Address` click
handler (lines 211-222): a `mailto:` link containing no `?` has its scheme
prefix removed; every other link is copied unchanged. -/
def copyLinkAddressText (linkURL : String) : String :=
  if jsStartsWith linkURL "mailto:" && !(jsContainsChar linkURL '?') then
    jsReplaceFirst linkURL "mailto:" ""
  else linkURL

/-- A credential record returned by the autofill lookup. -/
structure Credential where
  account : String
  password : String
deriving Repr, DecidableEq

/-- `isAutofillPasswordField` (lines 591-597): the field is eligible when
it is a password input, editable, and the contents URL is https. -/
def isAutofillPasswordField (contentsURL : String) (p : CMParams) : Bool :=
  if p.inputFieldType ≠ "password" then false
  else if !p.isEditable then false
  else if !(jsStartsWith contentsURL "https://") then false
  else true

/-- `renderAutofillSection` (lines 606-633): `undefined` for an ineligible
field, otherwise one action per credential followed by the two fixed
management actions. -/
def renderAutofillSection (contentsURL : String) (p : CMParams)
    (credentials : List Credential) : Option (List Item) :=
  if !(isAutofillPasswordField contentsURL p) then none
  else some
    ((credentials.map (fun rec => Item.action rec.account true (some "AUTOFILL_MENU"))) ++
     [Item.action "Manage saved passwords" true none,
      Item.action "Add new password" true none])

/-- Outcome of the asynchronous `findCredentials` lookup. -/
inductive LookupOutcome where
  | success (credentials : List Credential)
  | failure
deriving Repr

/-- The template handed to `presentMenu` by `launchMenu` (lines 111-126).
`available` and `validUrl` are the autofill service's replies at launch
time, `urlLaunch` is `contents.getURL()` when the gate is evaluated and
`urlRender` is `contents.getURL()` when the lookup resolves; on a rejected
lookup the catch handler presents the synchronous sections unchanged. -/
def launchMenuPresented (available validUrl : Bool) (urlLaunch urlRender : String)
    (p : CMParams) (outcome : LookupOutcome)
    (sections : List (Option (List Item))) : List Item :=
  if available && validUrl && isAutofillPasswordField urlLaunch p then
    match outcome with
    | LookupOutcome.success creds =>
        convertSectionsToTemplate (renderAutofillSection urlRender p creds :: sections)
    | LookupOutcome.failure => convertSectionsToTemplate sections
  else convertSectionsToTemplate sections

/-!
Extension menu section (`renderExtensionSection`, `renderExtensionMenuTree`,
`renderExtensionMenuItem`, lines 645-757).

`CRExtensionRTContextMenu` itself lives outside the reviewed sources; its
node shape and its marker constants are modelled from the spec, while all
logic below is translated from `ContextMenuService.js`.
-/

/-- Modelled from the spec: an Extension Menu Node
(`{id, parentId?, title, kind, enabled, checked, visibilityContexts}`) as
exposed by `CRExtensionRTContextMenu`, which is not under the reviewed
sources. -/
structure CRNode where
  id : String
  parentId : Option String
  title : String
  type : String
  enabled : Bool
  checked : Bool
  contexts : List String
deriving Repr, DecidableEq

/-- Modelled from the spec: the `CONTEXT_TYPES.ALL` marker of
`CRExtensionRTContextMenu`. -/
def contextTypeAll : String := "all"

/-- Modelled from the spec: the `CONTEXT_TYPES.PAGE` marker. -/
def contextTypePage : String := "page"

/-- Modelled from the spec: the `CONTEXT_TYPES.EDITABLE` marker. -/
def contextTypeEditable : String := "editable"

/-- Modelled from the spec: the `ITEM_TYPES.NORMAL` kind tag. -/
def itemTypeNormal : String := "normal"

/-- Modelled from the spec: the `ITEM_TYPES.CHECKBOX` kind tag. -/
def itemTypeCheckbox : String := "checkbox"

/-- Modelled from the spec: the `ITEM_TYPES.RADIO` kind tag. -/
def itemTypeRadio : String := "radio"

/-- Modelled from the spec: the `ITEM_TYPES.SEPERATOR` kind tag (spelled
this way in the source). -/
def itemTypeSeperator : String := "separator"

/-- JS `a || b` on strings: the first operand when it is truthy (non-empty),
otherwise the second. -/
def jsOr (a b : String) : String :=
  if a = "" then b else a

/-- The visibility filter applied to each extension node (lines 663-670),
exactly as written in the source: note that the first test is
`contexts.has(CONTEXT_TYPES.ALL || CONTEXT_TYPES.PAGE)`, whose argument is
the JS disjunction of the two marker strings. -/
def visibilityFilter (isEditable : Bool) (menu : CRNode) : Bool :=
  if menu.contexts.contains (jsOr contextTypeAll contextTypePage) then true
  else if isEditable && menu.contexts.contains contextTypeEditable then true
  else false

/-- The visibility rule as the spec words it: include the node when its
contexts contain the "all" or "page" marker, or the caller is editable and
the node declares the "editable" marker. -/
def visibilityFilterSpec (isEditable : Bool) (menu : CRNode) : Bool :=
  menu.contexts.contains contextTypeAll || menu.contexts.contains contextTypePage ||
    (isEditable && menu.contexts.contains contextTypeEditable)

/-- The data of a rendered extension menu item (`renderExtensionMenuItem`,
lines 728-757), before any submenu is attached to it. -/
inductive RenderedItem where
  | action (id title : String) (enabled : Bool)
  | checkbox (id title : String) (checked : Bool)
  | radio (id title : String) (checked : Bool)
  | separator
deriving Repr, DecidableEq

/-- `renderExtensionMenuItem` (lines 728-757): render a node per its kind,
`undefined` for unknown kinds. -/
def renderExtensionMenuItem (n : CRNode) : Option RenderedItem :=
  if n.type = itemTypeNormal then some (RenderedItem.action n.id n.title n.enabled)
  else if n.type = itemTypeCheckbox then some (RenderedItem.checkbox n.id n.title n.checked)
  else if n.type = itemTypeRadio then some (RenderedItem.radio n.id n.title n.checked)
  else if n.type = itemTypeSeperator then some RenderedItem.separator
  else none

/-- The truthiness test `menuItem.parentId && ...` (line 706): a missing or
empty-string parent id is falsy. -/
def parentTruthy (n : CRNode) : Option String :=
  match n.parentId with
  | some pid => if pid = "" then none else some pid
  | none => none

/-- The mutable heap of `renderExtensionMenuTree` (lines 699-718), with
rendered item objects identified by their position in the input list:
`root` is the root array, `edges` records each `parent.submenu.push`
as a (parent position, child position) pair, `index` is the id → object
map (latest insertion first), and `rendered` records every rendered
object's data. -/
structure TState where
  root : List Nat
  edges : List (Nat × Nat)
  index : List (String × Nat)
  rendered : List (Nat × RenderedItem)
deriving Repr, DecidableEq

/-- Lookup in the id → object map (`index.get`). -/
def alookup (k : String) : List (String × Nat) → Option Nat
  | [] => none
  | (a, v) :: rest => if a = k then some v else alookup k rest

/-- The test `menuItem.parentId && index.get(menuItem.parentId)` (line 706):
the parent position when the node declares a truthy parent id that is
already indexed, `none` otherwise. -/
def attachTarget (st : TState) (n : CRNode) : Option Nat :=
  match parentTruthy n with
  | some pid => alookup pid st.index
  | none => none

/-- One iteration of the `forEach` in `renderExtensionMenuTree`: render the
node; when rendered, attach it to its parent's submenu if the parent id is
truthy and already indexed, otherwise to the root; then index it. -/
def buildStep (pos : Nat) (st : TState) (n : CRNode) : TState :=
  match renderExtensionMenuItem n with
  | none => st
  | some r =>
    let st1 :=
      match attachTarget st n with
      | some p => { st with edges := st.edges ++ [(p, pos)] }
      | none => { st with root := st.root ++ [pos] }
    { st1 with index := (n.id, pos) :: st1.index, rendered := st1.rendered ++ [(pos, r)] }

/-- Fold `buildStep` over the node list, numbering nodes from `pos`. -/
def buildFrom (st : TState) (pos : Nat) : List CRNode → TState
  | [] => st
  | n :: rest => buildFrom (buildStep pos st n) (pos + 1) rest

/-- `renderExtensionMenuTree` (lines 699-718) in heap form. -/
def buildTree (menus : List CRNode) : TState :=
  buildFrom ⟨[], [], [], []⟩ 0 menus

/-- The submenu of the object at position `p`, in push order. -/
def childPositions (edges : List (Nat × Nat)) (p : Nat) : List Nat :=
  (edges.filter (fun e => e.1 = p)).map (fun e => e.2)

/-- A materialized menu item: its rendered data and its submenu. -/
inductive MatItem where
  | node (data : RenderedItem) (submenu : List MatItem)
deriving Repr

/-- Materialize the objects at the given positions, reading submenus off the
edge list; `fuel` bounds the depth (children always sit at strictly larger
positions, so `fuel` at least the list length is exact). -/
def materializeList (rendered : List (Nat × RenderedItem)) (edges : List (Nat × Nat)) :
    Nat → List Nat → List MatItem
  | 0, _ => []
  | fuel + 1, l =>
    l.map (fun i =>
      MatItem.node ((rendered.lookup i).getD RenderedItem.separator)
        (materializeList rendered edges fuel (childPositions edges i)))

/-- Materialize the single object at position `i`. -/
def matPos (rendered : List (Nat × RenderedItem)) (edges : List (Nat × Nat))
    (fuel : Nat) (i : Nat) : MatItem :=
  MatItem.node ((rendered.lookup i).getD RenderedItem.separator)
    (materializeList rendered edges fuel (childPositions edges i))

/-- An entry pushed onto the extension section's template (lines 674-685):
either a single rendered tree hoisted directly with the extension icon, or
the rendered trees wrapped in a submenu labelled with the extension name. -/
inductive ExtEntry where
  | hoisted (icon : String) (item : MatItem)
  | wrapped (label icon : String) (submenu : List MatItem)
deriving Repr

/-- The per-extension body of `renderExtensionSection` (lines 660-686),
applied to the already-filtered `validContextMenus`. -/
def extEntriesOf (name icon : String) (valid : List CRNode) : List ExtEntry :=
  if (buildTree valid).root.length = 1 then
    [ExtEntry.hoisted icon
      (matPos (buildTree valid).rendered (buildTree valid).edges valid.length
        ((buildTree valid).root.headD 0))]
  else if valid.length > 1 then
    [ExtEntry.wrapped name icon
      ((buildTree valid).root.map
        (matPos (buildTree valid).rendered (buildTree valid).edges valid.length))]
  else []

/-- One extension's contribution to the extension section: filter its nodes
through `visibilityFilter`, then group per `extEntriesOf`. -/
def renderExtensionOne (isEditable : Bool) (name icon : String)
    (menus : List CRNode) : List ExtEntry :=
  extEntriesOf name icon (menus.filter (fun m => visibilityFilter isEditable m))

/-- The data of one installed extension as read from the runtime handler. -/
structure ExtData where
  name : String
  icon : String
  contextMenus : List CRNode
deriving Repr

/-- `renderExtensionSection` (lines 645-689) over the listed extensions. -/
def renderExtensionSection (isEditable : Bool) (exts : List ExtData) : List ExtEntry :=
  (exts.map (fun e => renderExtensionOne isEditable e.name e.icon e.contextMenus)).flatten

/-- Reachability from the returned root array through submenu links. -/
inductive Reach (root : List Nat) (edges : List (Nat × Nat)) : Nat → Prop
  | base (i : Nat) : i ∈ root → Reach root edges i
  | step (p i : Nat) : Reach root edges p → (p, i) ∈ edges → Reach root edges i

/-!
Surface binding registry (`_handleWebContentsCreated`, lines 55-78).
-/

/-- The environment's answers about one web contents, as observed by the
deferred validation body: whether it is destroyed, whether a root contents
and a browser window resolve, whether a Wavebox window resolves, and that
window's root-contents policy data. -/
structure SurfaceInfo where
  id : Nat
  destroyed : Bool
  hasRootContents : Bool
  hasBrowserWindow : Bool
  hasWaveboxWindow : Bool
  rootHasContextMenu : Bool
  rootWebContentsId : Nat
deriving Repr, DecidableEq

/-- Registry state: the `privConnected` id set, plus the multiset of ids
carrying an attached `context-menu` trigger listener. -/
structure RegState where
  connected : List Nat
  listeners : List Nat
deriving Repr, DecidableEq

/-- The deferred body of `_handleWebContentsCreated` (lines 56-77): abort on
a destroyed surface, an already-connected id, an unresolvable root contents
or browser window, or a Wavebox window whose root contents opts out of the
menu and is this very contents; otherwise record the id and attach the
trigger. -/
def handleWebContentsCreated (st : RegState) (s : SurfaceInfo) : RegState :=
  if s.destroyed then st
  else if s.id ∈ st.connected then st
  else if !s.hasRootContents then st
  else if !s.hasBrowserWindow then st
  else if s.hasWaveboxWindow && !s.rootHasContextMenu && s.rootWebContentsId == s.id then st
  else { connected := s.id :: st.connected, listeners := s.id :: st.listeners }

/-- A template neither starts nor ends with a separator and never holds two
consecutive separators. -/
def sepWellFormed (l : List Item) : Prop :=
  (∀ x, l.head? = some x → isSep x = false) ∧
  (∀ x, l.getLast? = some x → isSep x = false) ∧
  List.Chain' (fun a b => isSep a = false ∨ isSep b = false) l

example : convertSectionsToTemplate
    [some [Item.action "a" true none], none, some [], some [Item.action "b" true none]] =
    [Item.action "a" true none, Item.separator, Item.action "b" true none] := by
  decide

example : copyLinkAddressText "mailto:user@x.com" = "user@x.com" := by decide

example : copyLinkAddressText "mailto:user@x.com?subject=hi" = "mailto:user@x.com?subject=hi" := by
  decide

example : contextDisplayText "ab" = "ab" := by decide

example :
    (buildTree
      [⟨"child", some "parent", "Child", "normal", true, false, ["all"]⟩,
       ⟨"parent", none, "Parent", "normal", true, false, ["all"]⟩]).root = [0, 1] := by
  decide

example :
    (buildTree
      [⟨"parent", none, "Parent", "normal", true, false, ["all"]⟩,
       ⟨"child", some "parent", "Child", "normal", true, false, ["all"]⟩]) =
    ⟨[0], [(0, 1)], [("child", 1), ("parent", 0)],
     [(0, RenderedItem.action "parent" "Parent" true),
      (1, RenderedItem.action "child" "Child" true)]⟩ := by
  decide

example : visibilityFilter false ⟨"n", none, "t", "normal", true, false, ["page"]⟩ = false := by
  decide

example : visibilityFilterSpec false ⟨"n", none, "t", "normal", true, false, ["page"]⟩ = true := by
  decide

example :
    renderExtensionOne false "Ext" "icon.png"
      [⟨"a", none, "A", "normal", true, false, ["all"]⟩] =
    [ExtEntry.hoisted "icon.png" (MatItem.node (RenderedItem.action "a" "A" true) [])] := by
  rfl

/-!
Invariants of the tree builder.  `TreeInv done st` relates the heap state to
the prefix `done` of nodes already iterated: positions are in range, every
object sits in exactly one container (root array or one submenu), indexed
objects are reachable from the root, and the id map only holds ids of
already-rendered nodes.
-/

/-- A hit of the id map is one of its entries. -/
theorem alookup_mem {k : String} {v : Nat} :
    ∀ {l : List (String × Nat)}, alookup k l = some v → (k, v) ∈ l := by
  intro l
  induction l with
  | nil => intro h; simp [alookup] at h
  | cons p rest ih =>
    intro h
    obtain ⟨a, b⟩ := p
    by_cases hak : a = k
    · subst hak
      simp [alookup] at h
      subst h
      exact List.mem_cons_self _ _
    · rw [alookup, if_neg hak] at h
      exact List.mem_cons_of_mem _ (ih h)

/-- Reachability survives extending the root array and the edge list. -/
theorem Reach.mono {r r' : List Nat} {e e' : List (Nat × Nat)}
    (hr : ∀ x ∈ r, x ∈ r') (he : ∀ x ∈ e, x ∈ e') {i : Nat}
    (h : Reach r e i) : Reach r' e' i := by
  induction h with
  | base j hj => exact Reach.base j (hr j hj)
  | step p j _ hmem ih => exact Reach.step p j ih (he _ hmem)

/-- Invariant of `buildFrom` after iterating the nodes in `done`. -/
structure TreeInv (done : List CRNode) (st : TState) : Prop where
  rootBound : ∀ i ∈ st.root, i < done.length
  edgeBound : ∀ e ∈ st.edges, e.2 < done.length
  indexBound : ∀ pr ∈ st.index, pr.2 < done.length
  occNodup : (st.root ++ st.edges.map Prod.snd).Nodup
  indexReach : ∀ pr ∈ st.index, Reach st.root st.edges pr.2
  indexSound : ∀ s p, alookup s st.index = some p →
    ∃ m, done[p]? = some m ∧ (renderExtensionMenuItem m).isSome = true ∧ m.id = s

/-- Appending a fresh element to the left part keeps the occurrence list
duplicate-free. -/
theorem nodup_snoc_left {r e : List Nat} {x : Nat} (h : (r ++ e).Nodup)
    (hx : x ∉ r ++ e) : ((r ++ [x]) ++ e).Nodup := by
  rw [List.append_assoc, List.singleton_append]
  exact List.nodup_middle.mpr (List.nodup_cons.mpr ⟨hx, h⟩)

/-- Appending a fresh element to the right part keeps the occurrence list
duplicate-free. -/
theorem nodup_snoc_right {r e : List Nat} {x : Nat} (h : (r ++ e).Nodup)
    (hx : x ∉ r ++ e) : (r ++ (e ++ [x])).Nodup := by
  rw [← List.append_assoc]
  have : ((r ++ e) ++ [x]) = (r ++ e) ++ x :: [] := rfl
  rw [this]
  exact List.nodup_middle.mpr (by simpa using List.nodup_cons.mpr ⟨hx, h⟩)

/-- A duplicate-free list of naturals all below `n` has at most `n`
elements. -/
theorem length_le_of_nodup_bound {l : List Nat} {n : Nat} (hnd : l.Nodup)
    (hb : ∀ x ∈ l, x < n) : l.length ≤ n := by
  have h1 : l.toFinset.card = l.length := List.toFinset_card_of_nodup hnd
  have h2 : l.toFinset ⊆ Finset.range n := by
    intro x hx
    rw [List.mem_toFinset] at hx
    exact Finset.mem_range.mpr (hb x hx)
  have h3 := Finset.card_le_card h2
  rw [h1, Finset.card_range] at h3
  exact h3

/-- The next position is in neither container yet. -/
theorem treeInv_fresh {done : List CRNode} {st : TState} (h : TreeInv done st) :
    done.length ∉ st.root ++ st.edges.map Prod.snd := by
  intro hmem
  rcases List.mem_append.mp hmem with h1 | h1
  · exact absurd (h.rootBound _ h1) (lt_irrefl _)
  · obtain ⟨e, he, hee⟩ := List.mem_map.mp h1
    have := h.edgeBound e he
    omega

/-- Rendering a node and attaching it at the root preserves the invariant. -/
theorem treeInv_root_case {done : List CRNode} {st : TState} {n : CRNode}
    {r : RenderedItem} (hr : renderExtensionMenuItem n = some r)
    (h : TreeInv done st) :
    TreeInv (done ++ [n])
      { root := st.root ++ [done.length], edges := st.edges,
        index := (n.id, done.length) :: st.index,
        rendered := st.rendered ++ [(done.length, r)] } := by
  refine ⟨?_, ?_, ?_, ?_, ?_, ?_⟩
  · intro i hi
    simp only [List.length_append, List.length_cons, List.length_nil]
    rcases List.mem_append.mp hi with h1 | h1
    · have := h.rootBound i h1; omega
    · simp only [List.mem_singleton] at h1; omega
  · intro e he
    have := h.edgeBound e he
    simp only [List.length_append, List.length_cons, List.length_nil]
    omega
  · intro pr hpr
    simp only [List.length_append, List.length_cons, List.length_nil]
    rcases List.mem_cons.mp hpr with h1 | h1
    · subst h1; simp
    · have := h.indexBound pr h1; omega
  · exact nodup_snoc_left h.occNodup (treeInv_fresh h)
  · intro pr hpr
    rcases List.mem_cons.mp hpr with h1 | h1
    · subst h1
      exact Reach.base _ (List.mem_append_right _ (List.mem_singleton.mpr rfl))
    · exact (h.indexReach pr h1).mono
        (fun x hx => List.mem_append_left _ hx) (fun x hx => hx)
  · intro s p hsp
    rw [alookup] at hsp
    by_cases hids : n.id = s
    · rw [if_pos hids] at hsp
      have hp : p = done.length := by
        simpa using hsp.symm
      subst hp
      refine ⟨n, List.getElem?_concat_length done n, ?_, hids⟩
      rw [hr]; rfl
    · rw [if_neg hids] at hsp
      obtain ⟨m, hm, hrm, hid⟩ := h.indexSound s p hsp
      have hp : p < done.length := h.indexBound _ (alookup_mem hsp)
      exact ⟨m, by rw [List.getElem?_append_left hp]; exact hm, hrm, hid⟩

/-- Rendering a node and attaching it under an indexed parent preserves the
invariant. -/
theorem treeInv_edge_case {done : List CRNode} {st : TState} {n : CRNode}
    {r : RenderedItem} {pid : String} {p : Nat}
    (hr : renderExtensionMenuItem n = some r)
    (hal : alookup pid st.index = some p) (h : TreeInv done st) :
    TreeInv (done ++ [n])
      { root := st.root, edges := st.edges ++ [(p, done.length)],
        index := (n.id, done.length) :: st.index,
        rendered := st.rendered ++ [(done.length, r)] } := by
  refine ⟨?_, ?_, ?_, ?_, ?_, ?_⟩
  · intro i hi
    have := h.rootBound i hi
    simp only [List.length_append, List.length_cons, List.length_nil]
    omega
  · intro e he
    simp only [List.length_append, List.length_cons, List.length_nil]
    rcases List.mem_append.mp he with h1 | h1
    · have := h.edgeBound e h1; omega
    · simp only [List.mem_singleton] at h1; subst h1; simp
  · intro pr hpr
    simp only [List.length_append, List.length_cons, List.length_nil]
    rcases List.mem_cons.mp hpr with h1 | h1
    · subst h1; simp
    · have := h.indexBound pr h1; omega
  · have h1 : (st.root ++ (st.edges ++ [(p, done.length)]).map Prod.snd) =
        st.root ++ (st.edges.map Prod.snd ++ [done.length]) := by
      simp
    rw [h1]
    exact nodup_snoc_right h.occNodup (treeInv_fresh h)
  · intro pr hpr
    have hsub : ∀ x ∈ st.edges, x ∈ st.edges ++ [(p, done.length)] :=
      fun x hx => List.mem_append_left _ hx
    rcases List.mem_cons.mp hpr with h1 | h1
    · subst h1
      have hpar : Reach st.root (st.edges ++ [(p, done.length)]) p :=
        (h.indexReach _ (alookup_mem hal)).mono (fun x hx => hx) hsub
      exact Reach.step p _ hpar
        (List.mem_append_right _ (List.mem_singleton.mpr rfl))
    · exact (h.indexReach pr h1).mono (fun x hx => hx) hsub
  · intro s q hsq
    rw [alookup] at hsq
    by_cases hids : n.id = s
    · rw [if_pos hids] at hsq
      have hq : q = done.length := by
        simpa using hsq.symm
      subst hq
      refine ⟨n, List.getElem?_concat_length done n, ?_, hids⟩
      rw [hr]; rfl
    · rw [if_neg hids] at hsq
      obtain ⟨m, hm, hrm, hid⟩ := h.indexSound s q hsq
      have hq : q < done.length := h.indexBound _ (alookup_mem hsq)
      exact ⟨m, by rw [List.getElem?_append_left hq]; exact hm, hrm, hid⟩

/-- A skipped (unrendered) node preserves the invariant. -/
theorem treeInv_skip_case {done : List CRNode} {st : TState} {n : CRNode}
    (h : TreeInv done st) : TreeInv (done ++ [n]) st := by
  refine ⟨?_, ?_, ?_, h.occNodup, h.indexReach, ?_⟩
  · intro i hi
    have := h.rootBound i hi
    simp only [List.length_append, List.length_cons, List.length_nil]
    omega
  · intro e he
    have := h.edgeBound e he
    simp only [List.length_append, List.length_cons, List.length_nil]
    omega
  · intro pr hpr
    have := h.indexBound pr hpr
    simp only [List.length_append, List.length_cons, List.length_nil]
    omega
  · intro s p hsp
    obtain ⟨m, hm, hrm, hid⟩ := h.indexSound s p hsp
    have hp : p < done.length := h.indexBound _ (alookup_mem hsp)
    exact ⟨m, by rw [List.getElem?_append_left hp]; exact hm, hrm, hid⟩

/-- An attach hit means some truthy parent id is indexed at that position. -/
theorem attachTarget_some {st : TState} {n : CRNode} {p : Nat}
    (h : attachTarget st n = some p) :
    ∃ pid, parentTruthy n = some pid ∧ alookup pid st.index = some p := by
  unfold attachTarget at h
  cases hpt : parentTruthy n with
  | none => rw [hpt] at h; simp at h
  | some pid => rw [hpt] at h; exact ⟨pid, rfl, h⟩

/-- `buildStep` preserves the invariant. -/
theorem buildStep_inv {done : List CRNode} {st : TState} (n : CRNode)
    (h : TreeInv done st) : TreeInv (done ++ [n]) (buildStep done.length st n) := by
  cases hr : renderExtensionMenuItem n with
  | none =>
    rw [buildStep, hr]
    exact treeInv_skip_case h
  | some r =>
    rw [buildStep, hr]
    cases hat : attachTarget st n with
    | none => exact treeInv_root_case hr h
    | some p =>
      obtain ⟨pid, hpt, hal⟩ := attachTarget_some hat
      exact treeInv_edge_case hr hal h

/-- `buildFrom` preserves the invariant along any node list. -/
theorem buildFrom_inv (rest : List CRNode) :
    ∀ (done : List CRNode) (st : TState), TreeInv done st →
      TreeInv (done ++ rest) (buildFrom st done.length rest) := by
  induction rest with
  | nil =>
    intro done st h
    simpa [buildFrom] using h
  | cons n rest' ih =>
    intro done st h
    have h1 := buildStep_inv n h
    have h2 := ih (done ++ [n]) (buildStep done.length st n) h1
    have hl : (done ++ [n]).length = done.length + 1 := by simp
    rw [hl] at h2
    have ha : (done ++ [n]) ++ rest' = done ++ n :: rest' := by
      rw [List.append_assoc, List.singleton_append]
    rw [ha] at h2
    exact h2

/-- The empty state satisfies the invariant for the empty prefix. -/
theorem treeInv_nil : TreeInv [] ⟨[], [], [], []⟩ := by
  refine ⟨?_, ?_, ?_, ?_, ?_, ?_⟩
  · intro i hi; simp at hi
  · intro e he; simp at he
  · intro pr hpr; simp at hpr
  · simp
  · intro pr hpr; simp at hpr
  · intro s p hsp; simp [alookup] at hsp

/-- The full-run invariant of `renderExtensionMenuTree`. -/
theorem buildTree_inv (menus : List CRNode) : TreeInv menus (buildTree menus) := by
  have h := buildFrom_inv menus [] ⟨[], [], [], []⟩ treeInv_nil
  simpa [buildTree] using h

/-- Splitting the iteration of `buildFrom` at a list boundary. -/
theorem buildFrom_append (l1 l2 : List CRNode) (st : TState) (pos : Nat) :
    buildFrom st pos (l1 ++ l2) =
      buildFrom (buildFrom st pos l1) (pos + l1.length) l2 := by
  induction l1 generalizing st pos with
  | nil => simp [buildFrom]
  | cons n l1' ih =>
    have h1 : buildFrom st pos ((n :: l1') ++ l2) =
        buildFrom (buildStep pos st n) (pos + 1) (l1' ++ l2) := rfl
    have h2 : buildFrom st pos (n :: l1') =
        buildFrom (buildStep pos st n) (pos + 1) l1' := rfl
    have h3 : pos + (n :: l1').length = (pos + 1) + l1'.length := by
      simp [List.length_cons]
      omega
    rw [h1, ih, h2, h3]

/-- One step never removes anything from the root array. -/
theorem buildStep_root_mem (pos : Nat) (st : TState) (n : CRNode) {x : Nat}
    (hx : x ∈ st.root) : x ∈ (buildStep pos st n).root := by
  cases hr : renderExtensionMenuItem n with
  | none => rw [buildStep, hr]; exact hx
  | some r =>
    rw [buildStep, hr]
    cases hat : attachTarget st n with
    | none => exact List.mem_append_left _ hx
    | some p => exact hx

/-- The whole iteration never removes anything from the root array. -/
theorem buildFrom_root_mem (rest : List CRNode) (st : TState) (pos : Nat) {x : Nat}
    (hx : x ∈ st.root) : x ∈ (buildFrom st pos rest).root := by
  induction rest generalizing st pos with
  | nil => exact hx
  | cons n rest' ih => exact ih _ _ (buildStep_root_mem pos st n hx)

/-!
Shape of the aggregator's accumulator: after any number of sections, the
accumulator is empty or a well-formed non-empty body followed by exactly one
trailing separator.
-/

/-- Accumulator invariant of the `reduce` in `convertSectionsToTemplate`. -/
def accShape (acc : List Item) : Prop :=
  acc = [] ∨ ∃ body, acc = body ++ [Item.separator] ∧ body ≠ [] ∧ sepWellFormed body

/-- The empty template is separator well-formed. -/
theorem sepWellFormed_nil : sepWellFormed [] := by
  refine ⟨?_, ?_, List.chain'_nil⟩
  · intro x hx; simp at hx
  · intro x hx; simp at hx

/-- Gluing a well-formed body, one separator and a well-formed non-empty
section keeps the body well-formed. -/
theorem sepWellFormed_glue {body s : List Item} (hb : sepWellFormed body)
    (hbne : body ≠ []) (hs : sepWellFormed s) (hsne : s ≠ []) :
    sepWellFormed ((body ++ [Item.separator]) ++ s) := by
  obtain ⟨hbh, hbl, hbc⟩ := hb
  obtain ⟨hsh, hsl, hsc⟩ := hs
  refine ⟨?_, ?_, ?_⟩
  · intro x hx
    rw [List.head?_append_of_ne_nil _ (by simp [hbne] : body ++ [Item.separator] ≠ [])] at hx
    rw [List.head?_append_of_ne_nil _ hbne] at hx
    exact hbh x hx
  · intro x hx
    rw [List.getLast?_append_of_ne_nil _ hsne] at hx
    exact hsl x hx
  · refine List.Chain'.append ?_ hsc ?_
    · refine List.Chain'.append hbc (List.chain'_singleton _) ?_
      intro a ha b _
      exact Or.inl (hbl a ha)
    · intro a _ b hb2
      exact Or.inr (hsh b hb2)

/-- One `reduce` step preserves the accumulator shape, provided the incoming
section is separator well-formed. -/
theorem accShape_step {acc : List Item} {sec : Option (List Item)}
    (ha : accShape acc) (hs : ∀ s, sec = some s → sepWellFormed s) :
    accShape (sectionFoldStep acc sec) := by
  cases sec with
  | none => exact ha
  | some s =>
    by_cases hse : s.isEmpty
    · rw [sectionFoldStep, if_pos hse]
      exact ha
    · have hswf := hs s rfl
      have hsne : s ≠ [] := by
        cases s
        · simp at hse
        · simp
      rw [sectionFoldStep, if_neg hse]
      rcases ha with h0 | ⟨body, hb1, hb2, hb3⟩
      · subst h0
        exact Or.inr ⟨s, by simp, hsne, hswf⟩
      · subst hb1
        exact Or.inr ⟨(body ++ [Item.separator]) ++ s, rfl,
          by simp [hsne], sepWellFormed_glue hb3 hb2 hswf hsne⟩

/-- The whole `reduce` preserves the accumulator shape. -/
theorem foldl_accShape (sections : List (Option (List Item))) (acc : List Item)
    (hsec : ∀ s, some s ∈ sections → sepWellFormed s) (ha : accShape acc) :
    accShape (sections.foldl sectionFoldStep acc) := by
  induction sections generalizing acc with
  | nil => exact ha
  | cons sec rest ih =>
    rw [List.foldl_cons]
    exact ih (sectionFoldStep acc sec)
      (fun s hsmem => hsec s (List.mem_cons_of_mem _ hsmem))
      (accShape_step ha
        (fun s hse => hsec s (by rw [hse]; exact List.mem_cons_self _ _)))

/-- Sections with no separator at all are separator well-formed. -/
theorem sepWellFormed_of_noSep {l : List Item} (h : ∀ x ∈ l, isSep x = false) :
    sepWellFormed l := by
  refine ⟨?_, ?_, ?_⟩
  · intro x hx
    exact h x (List.mem_of_mem_head? hx)
  · intro x hx
    exact h x (List.mem_of_mem_getLast? hx)
  · induction l with
    | nil => exact List.chain'_nil
    | cons a rest ih =>
      rw [List.chain'_cons']
      refine ⟨?_, ?_⟩
      · intro y _
        exact Or.inl (h a (List.mem_cons_self _ _))
      · exact ih (fun x hx => h x (List.mem_cons_of_mem _ hx))

/-!
Claim theorems.
-/

/-- Claim C1: the spec says a node is included iff its contexts hold the
"all" or "page" marker, or the invocation is editable and the node declares
"editable".  The source instead evaluates `contexts.has(ALL || PAGE)`, and
the JS disjunction of the two non-empty marker strings is just `ALL`, so in
a non-editable invocation the source filter reduces to membership of "all"
alone, and a node declaring only the "page" context is dropped although the
spec (and the evident intent) includes it. -/
theorem claimC1_visibility_divergence :
    (∀ menu : CRNode, visibilityFilter false menu = menu.contexts.contains contextTypeAll) ∧
    visibilityFilter false ⟨"n1", none, "t", "normal", true, false, ["page"]⟩ = false ∧
    visibilityFilterSpec false ⟨"n1", none, "t", "normal", true, false, ["page"]⟩ = true := by
  refine ⟨?_, by decide, by decide⟩
  intro menu
  unfold visibilityFilter
  rw [show jsOr contextTypeAll contextTypePage = contextTypeAll from by decide]
  cases hcb : menu.contexts.contains contextTypeAll
  · simp
  · simp

/-- Claim C2 fails as stated: a section consisting of a lone separator makes
the aggregated template start with a separator. -/
theorem claimC2_counterexample :
    ¬ sepWellFormed (convertSectionsToTemplate [some [Item.separator]]) := by
  intro h
  have h1 : isSep Item.separator = false :=
    h.1 Item.separator (by decide)
  simp [isSep] at h1

/-- Claim C2 (amended): for every list of sections none of which begins or
ends with a separator or contains two consecutive separators, the template
produced by the aggregator never has a separator first or last and never two
consecutive separators — separators are inserted only between non-empty
sections. -/
theorem claimC2_amended (sections : List (Option (List Item)))
    (hsec : ∀ s, some s ∈ sections → sepWellFormed s) :
    sepWellFormed (convertSectionsToTemplate sections) := by
  have hacc := foldl_accShape sections [] hsec (Or.inl rfl)
  rcases hacc with h0 | ⟨body, hb1, hb2, hb3⟩
  · unfold convertSectionsToTemplate
    rw [h0, List.dropLast_nil]
    exact sepWellFormed_nil
  · unfold convertSectionsToTemplate
    rw [hb1, List.dropLast_concat]
    exact hb3

/-- Witness for claim C2 on a concrete section list exercising an absent
section, an empty section and an interior separator. -/
theorem claimC2_witness :
    sepWellFormed (convertSectionsToTemplate
      [some [Item.action "Copy" true none], none, some [],
       some [Item.action "Open" true none, Item.separator,
         Item.action "Print" true none]]) := by
  apply claimC2_amended
  intro s hs
  simp only [List.mem_cons, List.mem_singleton, Option.some.injEq,
    List.not_mem_nil, or_false, reduceCtorEq, false_or] at hs
  rcases hs with h | h | h
  · subst h
    exact sepWellFormed_of_noSep (by decide)
  · subst h
    exact sepWellFormed_nil
  · subst h
    refine ⟨?_, ?_, ?_⟩
    · intro x hx
      have he := Option.some.inj hx
      exact he ▸ rfl
    · intro x hx
      have hl : ([Item.action "Open" true none, Item.separator,
          Item.action "Print" true none]).getLast? =
          some (Item.action "Print" true none) := rfl
      rw [hl] at hx
      have he := Option.some.inj hx
      exact he ▸ rfl
    · exact List.chain'_cons.mpr ⟨Or.inl rfl,
        List.chain'_cons.mpr ⟨Or.inr rfl, List.chain'_singleton _⟩⟩

/-- Claim C3: when the credential lookup rejects, the catch handler presents
exactly the synchronous-only composition — the same template the no-autofill
path presents — so enrichment failure neither changes the menu nor blocks
presentation. -/
theorem claimC3_enrichment_fail_open (available validUrl : Bool)
    (urlLaunch urlRender : String) (p : CMParams)
    (sections : List (Option (List Item))) :
    launchMenuPresented available validUrl urlLaunch urlRender p
      LookupOutcome.failure sections = convertSectionsToTemplate sections ∧
    launchMenuPresented false false urlLaunch urlRender p
      LookupOutcome.failure sections = convertSectionsToTemplate sections := by
  constructor
  · by_cases hg : (available && validUrl && isAutofillPasswordField urlLaunch p) = true
    · simp [launchMenuPresented, hg]
    · simp [launchMenuPresented, hg]
  · simp [launchMenuPresented]

/-- Claim C9: the Copy Link Address action strips the `mailto:` scheme from
a query-less mailto link, keeps a mailto link with a query string intact,
and copies every non-mailto link unchanged. -/
theorem claimC9_copy_link :
    copyLinkAddressText "mailto:user@x.com" = "user@x.com" ∧
    copyLinkAddressText "mailto:user@x.com?subject=hi" = "mailto:user@x.com?subject=hi" ∧
    ∀ url : String, jsStartsWith url "mailto:" = false → copyLinkAddressText url = url := by
  refine ⟨by decide, by decide, ?_⟩
  intro url h
  unfold copyLinkAddressText
  rw [h]
  rfl

/-- Witness for claim C9 at a non-mailto link. -/
theorem claimC9_witness : copyLinkAddressText "https://example.com" = "https://example.com" :=
  claimC9_copy_link.2.2 "https://example.com" (by decide)

/-- Claim C10: the aggregator treats an absent (`undefined`/`null`) section
exactly like an empty one — no items, no separator, no failure — and when
`renderAutofillSection` yields `undefined` after a successful lookup, the
presented template equals the synchronous-only composition. -/
theorem claimC10_null_section_skipped :
    (∀ (l1 l2 : List (Option (List Item))),
      convertSectionsToTemplate (l1 ++ none :: l2) =
        convertSectionsToTemplate (l1 ++ l2) ∧
      convertSectionsToTemplate (l1 ++ some [] :: l2) =
        convertSectionsToTemplate (l1 ++ l2)) ∧
    (∀ (available validUrl : Bool) (urlLaunch urlRender : String) (p : CMParams)
      (creds : List Credential) (sections : List (Option (List Item))),
      isAutofillPasswordField urlRender p = false →
      launchMenuPresented available validUrl urlLaunch urlRender p
        (LookupOutcome.success creds) sections = convertSectionsToTemplate sections) := by
  constructor
  · intro l1 l2
    constructor
    · unfold convertSectionsToTemplate
      rw [List.foldl_append, List.foldl_append, List.foldl_cons]
      rfl
    · unfold convertSectionsToTemplate
      rw [List.foldl_append, List.foldl_append, List.foldl_cons]
      rfl
  · intro available validUrl urlLaunch urlRender p creds sections h
    have hra : renderAutofillSection urlRender p creds = none := by
      unfold renderAutofillSection
      rw [h]
      rfl
    by_cases hg : (available && validUrl && isAutofillPasswordField urlLaunch p) = true
    · simp only [launchMenuPresented, hg, if_true]
      rw [hra]
      rfl
    · simp only [launchMenuPresented, hg, if_false]
      rfl

/-- Witness for claim C10 on concrete sections and an ineligible render-time
field. -/
theorem claimC10_witness :
    convertSectionsToTemplate
      ([some [Item.action "x" true none]] ++ none :: [some [Item.action "y" true none]]) =
      convertSectionsToTemplate
        ([some [Item.action "x" true none]] ++ [some [Item.action "y" true none]]) ∧
    launchMenuPresented true true "https://a.com" "http://b.com"
      ⟨"", "", "", true, "password"⟩ (LookupOutcome.success [⟨"acct", "pw"⟩])
      [some [Item.action "x" true none]] =
      convertSectionsToTemplate [some [Item.action "x" true none]] := by
  constructor
  · exact (claimC10_null_section_skipped.1 _ _).1
  · exact claimC10_null_section_skipped.2 true true "https://a.com" "http://b.com"
      _ _ _ (by decide)

/-- Claim C4: a rendered node whose truthy `parentId` names no earlier
rendered node — a parent appearing later in the input order, or one never
rendered — is attached at the root level, not under that parent. -/
theorem claimC4_forward_parent_at_root (menus : List CRNode) (i : Nat) (n : CRNode)
    (pid : String) (hget : menus[i]? = some n)
    (hrend : (renderExtensionMenuItem n).isSome = true)
    (hpid : n.parentId = some pid) (hpne : pid ≠ "")
    (hearlier : ∀ j, j < i → ∀ m, menus[j]? = some m →
      (renderExtensionMenuItem m).isSome = true → m.id ≠ pid) :
    i ∈ (buildTree menus).root := by
  have hi : i < menus.length := by
    by_contra hcon
    push_neg at hcon
    rw [List.getElem?_eq_none hcon] at hget
    simp at hget
  have htake_len : (menus.take i).length = i := by
    rw [List.length_take]
    omega
  have hdrop : menus.drop i = n :: menus.drop (i + 1) := by
    have h1 := List.drop_eq_getElem_cons hi
    have h2 : menus[i]? = some n := hget
    rw [List.getElem?_eq_getElem hi] at h2
    rw [h1, Option.some.inj h2]
  have hinv : TreeInv (menus.take i) (buildFrom ⟨[], [], [], []⟩ 0 (menus.take i)) := by
    have h := buildFrom_inv (menus.take i) [] ⟨[], [], [], []⟩ treeInv_nil
    simpa using h
  have hlook : alookup pid (buildFrom ⟨[], [], [], []⟩ 0 (menus.take i)).index = none := by
    cases hal : alookup pid (buildFrom ⟨[], [], [], []⟩ 0 (menus.take i)).index with
    | none => rfl
    | some p =>
      obtain ⟨m, hm, hrm, hid⟩ := hinv.indexSound pid p hal
      have hp : p < i := by
        have hb := hinv.indexBound _ (alookup_mem hal)
        rw [htake_len] at hb
        exact hb
      rw [List.getElem?_take_of_lt hp] at hm
      exact absurd hid (hearlier p hp m hm hrm)
  obtain ⟨r, hr⟩ := Option.isSome_iff_exists.mp hrend
  have hpt : parentTruthy n = some pid := by
    simp [parentTruthy, hpid, hpne]
  have hat : attachTarget (buildFrom ⟨[], [], [], []⟩ 0 (menus.take i)) n = none := by
    simp [attachTarget, hpt, hlook]
  have hstep : i ∈ (buildStep i (buildFrom ⟨[], [], [], []⟩ 0 (menus.take i)) n).root := by
    simp [buildStep, hr, hat]
  have hbt : buildTree menus =
      buildFrom (buildStep i (buildFrom ⟨[], [], [], []⟩ 0 (menus.take i)) n)
        (i + 1) (menus.drop (i + 1)) := by
    show buildFrom ⟨[], [], [], []⟩ 0 menus = _
    conv_lhs => rw [(List.take_append_drop i menus).symm]
    rw [buildFrom_append, htake_len, hdrop]
    rw [Nat.zero_add]
    rfl
  rw [hbt]
  exact buildFrom_root_mem _ _ _ hstep

/-- Witness for claim C4: the three-node list in which the child precedes
its parent leaves the child (position 0) at the root. -/
theorem claimC4_witness :
    0 ∈ (buildTree
      [⟨"child", some "parent", "Child", "normal", true, false, ["all"]⟩,
       ⟨"mid", none, "Mid", "normal", true, false, ["all"]⟩,
       ⟨"parent", none, "Parent", "normal", true, false, ["all"]⟩]).root := by
  refine claimC4_forward_parent_at_root _ 0
    ⟨"child", some "parent", "Child", "normal", true, false, ["all"]⟩ "parent"
    (by decide) (by decide) rfl (by decide) ?_
  intro j hj m _ _
  exact absurd hj (Nat.not_lt_zero j)

/-- Claim C5: every entry of the id → item index is reachable from the
returned root list through submenu links, and no rendered item occurs twice
across the root list and all submenus. -/
theorem claimC5_reachable_and_unique (menus : List CRNode) :
    (∀ pr ∈ (buildTree menus).index,
      Reach (buildTree menus).root (buildTree menus).edges pr.2) ∧
    ((buildTree menus).root ++ (buildTree menus).edges.map Prod.snd).Nodup := by
  have h := buildTree_inv menus
  exact ⟨h.indexReach, h.occNodup⟩

/-- Witness for claim C5 on a parent-then-child list: the child (position 1,
indexed under "c") is reachable and no position is duplicated. -/
theorem claimC5_witness :
    Reach (buildTree
        [⟨"p", none, "P", "normal", true, false, ["all"]⟩,
         ⟨"c", some "p", "C", "normal", true, false, ["all"]⟩]).root
      (buildTree
        [⟨"p", none, "P", "normal", true, false, ["all"]⟩,
         ⟨"c", some "p", "C", "normal", true, false, ["all"]⟩]).edges 1 ∧
    ((buildTree
        [⟨"p", none, "P", "normal", true, false, ["all"]⟩,
         ⟨"c", some "p", "C", "normal", true, false, ["all"]⟩]).root ++
      (buildTree
        [⟨"p", none, "P", "normal", true, false, ["all"]⟩,
         ⟨"c", some "p", "C", "normal", true, false, ["all"]⟩]).edges.map Prod.snd).Nodup := by
  constructor
  · exact (claimC5_reachable_and_unique _).1 ("c", 1) (by decide)
  · exact (claimC5_reachable_and_unique _).2

/-- The root list of a run never exceeds the number of iterated nodes. -/
theorem root_length_le (valid : List CRNode) :
    (buildTree valid).root.length ≤ valid.length := by
  have h := buildTree_inv valid
  exact length_le_of_nodup_bound h.occNodup.of_append_left h.rootBound

/-- Claim C6: an extension whose rendered tree has exactly one top-level
item contributes that item directly (with the extension icon, no wrapping
submenu); one with more than one top-level item contributes a single
submenu labelled with the extension name holding all of them. -/
theorem claimC6_grouping (isEditable : Bool) (name icon : String)
    (menus : List CRNode) :
    ((buildTree (menus.filter (fun m => visibilityFilter isEditable m))).root.length = 1 →
      renderExtensionOne isEditable name icon menus =
        [ExtEntry.hoisted icon
          (matPos
            (buildTree (menus.filter (fun m => visibilityFilter isEditable m))).rendered
            (buildTree (menus.filter (fun m => visibilityFilter isEditable m))).edges
            (menus.filter (fun m => visibilityFilter isEditable m)).length
            ((buildTree (menus.filter (fun m => visibilityFilter isEditable m))).root.headD 0))]) ∧
    ((buildTree (menus.filter (fun m => visibilityFilter isEditable m))).root.length > 1 →
      renderExtensionOne isEditable name icon menus =
        [ExtEntry.wrapped name icon
          ((buildTree (menus.filter (fun m => visibilityFilter isEditable m))).root.map
            (matPos
              (buildTree (menus.filter (fun m => visibilityFilter isEditable m))).rendered
              (buildTree (menus.filter (fun m => visibilityFilter isEditable m))).edges
              (menus.filter (fun m => visibilityFilter isEditable m)).length))]) := by
  constructor
  · intro h1
    show extEntriesOf name icon (menus.filter (fun m => visibilityFilter isEditable m)) = _
    unfold extEntriesOf
    rw [if_pos h1]
  · intro h2
    have hvl : (menus.filter (fun m => visibilityFilter isEditable m)).length > 1 :=
      lt_of_lt_of_le h2 (root_length_le _)
    have hne : ¬ (buildTree
        (menus.filter (fun m => visibilityFilter isEditable m))).root.length = 1 := by
      omega
    show extEntriesOf name icon (menus.filter (fun m => visibilityFilter isEditable m)) = _
    unfold extEntriesOf
    rw [if_neg hne, if_pos hvl]

/-- Witness for claim C6: a single-node extension is hoisted, a two-node
extension is wrapped under its name. -/
theorem claimC6_witness :
    renderExtensionOne false "Ext" "fav"
        [⟨"a", none, "A", "normal", true, false, ["all"]⟩] =
      [ExtEntry.hoisted "fav" (MatItem.node (RenderedItem.action "a" "A" true) [])] ∧
    renderExtensionOne false "Ext" "fav"
        [⟨"a", none, "A", "normal", true, false, ["all"]⟩,
         ⟨"b", none, "B", "normal", true, false, ["all"]⟩] =
      [ExtEntry.wrapped "Ext" "fav"
        [MatItem.node (RenderedItem.action "a" "A" true) [],
         MatItem.node (RenderedItem.action "b" "B" true) []]] := by
  constructor
  · have h := (claimC6_grouping false "Ext" "fav"
      [⟨"a", none, "A", "normal", true, false, ["all"]⟩]).1 (by decide)
    exact h
  · have h := (claimC6_grouping false "Ext" "fav"
      [⟨"a", none, "A", "normal", true, false, ["all"]⟩,
       ⟨"b", none, "B", "normal", true, false, ["all"]⟩]).2 (by decide)
    exact h

/-- A call of the deferred registry body either leaves the state unchanged
or, when no guard aborts, records the id and attaches one listener. -/
theorem handleWCC_cases (st : RegState) (s : SurfaceInfo) :
    handleWebContentsCreated st s = st ∨
    (s.destroyed = false ∧ s.id ∉ st.connected ∧
      handleWebContentsCreated st s =
        { connected := s.id :: st.connected, listeners := s.id :: st.listeners }) := by
  unfold handleWebContentsCreated
  by_cases h1 : s.destroyed
  · left; rw [if_pos h1]
  · rw [if_neg h1]
    by_cases h2 : s.id ∈ st.connected
    · left; rw [if_pos h2]
    · rw [if_neg h2]
      by_cases h3 : !s.hasRootContents
      · left; rw [if_pos h3]
      · rw [if_neg h3]
        by_cases h4 : !s.hasBrowserWindow
        · left; rw [if_pos h4]
        · rw [if_neg h4]
          by_cases h5 : s.hasWaveboxWindow && !s.rootHasContextMenu &&
              s.rootWebContentsId == s.id
          · left; rw [if_pos h5]
          · rw [if_neg h5]
            right
            exact ⟨by simpa using h1, h2, rfl⟩

/-- Claim C7: delivering the surface-created event again for the same
surface is a no-op once it has been handled, and the per-id listener bound
(at most one trigger binding per surface id) is preserved by every call, so
one user trigger presents exactly one menu. -/
theorem claimC7_idempotent_binding (st : RegState) (s : SurfaceInfo) :
    handleWebContentsCreated (handleWebContentsCreated st s) s =
      handleWebContentsCreated st s ∧
    ((∀ i, st.listeners.count i ≤ if i ∈ st.connected then 1 else 0) →
      ∀ i, (handleWebContentsCreated st s).listeners.count i ≤
        if i ∈ (handleWebContentsCreated st s).connected then 1 else 0) := by
  constructor
  · rcases handleWCC_cases st s with h | ⟨h1, _, hb⟩
    · rw [h]
      exact h
    · rw [hb]
      unfold handleWebContentsCreated
      rw [if_neg (by simp [h1]), if_pos (List.mem_cons_self s.id st.connected)]
  · intro hc i
    rcases handleWCC_cases st s with h | ⟨_, h2, hb⟩
    · rw [h]
      exact hc i
    · rw [hb]
      by_cases hi : i = s.id
      · subst hi
        rw [if_pos (List.mem_cons_self s.id st.connected)]
        have h0 : st.listeners.count s.id = 0 := by
          have hci := hc s.id
          rw [if_neg h2] at hci
          omega
        rw [List.count_cons_self, h0]
      · rw [List.count_cons_of_ne hi]
        have hmem : (i ∈ s.id :: st.connected) ↔ (i ∈ st.connected) := by
          simp [List.mem_cons, hi]
        by_cases hic : i ∈ st.connected
        · rw [if_pos (hmem.mpr hic)]
          have hci := hc i
          rw [if_pos hic] at hci
          exact hci
        · rw [if_neg (fun hcc => hic (hmem.mp hcc))]
          have hci := hc i
          rw [if_neg hic] at hci
          exact hci

/-- Witness for claim C7 on a fresh registry and a bindable surface. -/
theorem claimC7_witness :
    handleWebContentsCreated
        (handleWebContentsCreated ⟨[], []⟩ ⟨7, false, true, true, false, false, 0⟩)
        ⟨7, false, true, true, false, false, 0⟩ =
      handleWebContentsCreated ⟨[], []⟩ ⟨7, false, true, true, false, false, 0⟩ ∧
    (handleWebContentsCreated ⟨[], []⟩ ⟨7, false, true, true, false, false, 0⟩).listeners.count 7 ≤
      if 7 ∈ (handleWebContentsCreated ⟨[], []⟩
          ⟨7, false, true, true, false, false, 0⟩).connected then 1 else 0 := by
  constructor
  · exact (claimC7_idempotent_binding ⟨[], []⟩ ⟨7, false, true, true, false, false, 0⟩).1
  · exact (claimC7_idempotent_binding ⟨[], []⟩ ⟨7, false, true, true, false, false, 0⟩).2
      (fun i => by simp) 7

/-- Claim C8: with a selection of exactly 50 characters the lookup/search
labels use the first 47 characters plus an ellipsis; with 49 characters they
use the untruncated selection. -/
theorem claimC8_truncation (p : CMParams) :
    (p.selectionText.length = 50 →
      renderLookupAndSearchSection p =
        (if p.isEditable && p.misspelledWord ≠ "" then
          [Item.action ("Add “" ++ p.misspelledWord ++ "” to Dictionary") true none]
        else []) ++
        [Item.action ("Search Google for “" ++ (jsSubstrTake p.selectionText 47 ++ "…") ++ "”")
          true none,
         Item.action ("Translate “" ++ (jsSubstrTake p.selectionText 47 ++ "…") ++ "”")
          true none]) ∧
    (p.selectionText.length = 49 →
      renderLookupAndSearchSection p =
        (if p.isEditable && p.misspelledWord ≠ "" then
          [Item.action ("Add “" ++ p.misspelledWord ++ "” to Dictionary") true none]
        else []) ++
        [Item.action ("Search Google for “" ++ p.selectionText ++ "”") true none,
         Item.action ("Translate “" ++ p.selectionText ++ "”") true none]) := by
  constructor
  · intro h
    have hne : p.selectionText ≠ "" := by
      intro he
      rw [he] at h
      exact absurd h (by decide)
    unfold renderLookupAndSearchSection contextDisplayText
    rw [if_pos hne, if_pos (show p.selectionText.length ≥ 50 by omega)]
  · intro h
    have hne : p.selectionText ≠ "" := by
      intro he
      rw [he] at h
      exact absurd h (by decide)
    unfold renderLookupAndSearchSection contextDisplayText
    rw [if_pos hne, if_neg (show ¬ p.selectionText.length ≥ 50 by omega)]

/-- Witness for claim C8 at concrete 50- and 49-character selections. -/
theorem claimC8_witness :
    renderLookupAndSearchSection
        ⟨"aaaaaaaaaaaaaaaaaaaaaaaaaaaaaaaaaaaaaaaaaaaaaaaaaa", "", "", false, ""⟩ =
      [Item.action ("Search Google for “" ++
        (jsSubstrTake "aaaaaaaaaaaaaaaaaaaaaaaaaaaaaaaaaaaaaaaaaaaaaaaaaa" 47 ++ "…") ++ "”")
        true none,
       Item.action ("Translate “" ++
        (jsSubstrTake "aaaaaaaaaaaaaaaaaaaaaaaaaaaaaaaaaaaaaaaaaaaaaaaaaa" 47 ++ "…") ++ "”")
        true none] ∧
    renderLookupAndSearchSection
        ⟨"bbbbbbbbbbbbbbbbbbbbbbbbbbbbbbbbbbbbbbbbbbbbbbbbb", "", "", false, ""⟩ =
      [Item.action ("Search Google for “" ++
        "bbbbbbbbbbbbbbbbbbbbbbbbbbbbbbbbbbbbbbbbbbbbbbbbb" ++ "”") true none,
       Item.action ("Translate “" ++
        "bbbbbbbbbbbbbbbbbbbbbbbbbbbbbbbbbbbbbbbbbbbbbbbbb" ++ "”") true none] := by
  constructor
  · exact (claimC8_truncation
      ⟨"aaaaaaaaaaaaaaaaaaaaaaaaaaaaaaaaaaaaaaaaaaaaaaaaaa", "", "", false, ""⟩).1 (by decide)
  · exact (claimC8_truncation
      ⟨"bbbbbbbbbbbbbbbbbbbbbbbbbbbbbbbbbbbbbbbbbbbbbbbbb", "", "", false, ""⟩).2 (by decide)
